import Mathlib

/-!
Verification development for the qubes backup engine (src/core/backup.py).

The Python source is shallowly embedded: Python string primitives are
reimplemented on Lean strings and char lists, and effectful functions are
embedded as pure functions over small environments that supply the outcomes
of the external processes (digest tool output, process exit codes, queue
announcements).  Functions that mutate the filesystem additionally return an
ordered trace of externally visible effects, so that claims about "before"
and "on every failure path" become statements about the trace.
-/

/-- Python str.strip character class: the whitespace characters removed by
str.strip() with no argument. -/
def pyIsSpace (c : Char) : Bool :=
  c = ' ' || c = '\t' || c = '\n' || c = '\r' || c = '\x0b' || c = '\x0c'

/-- Python str.strip() on a char list: drop whitespace from both ends. -/
def pyStripL (l : List Char) : List Char :=
  ((l.dropWhile pyIsSpace).reverse.dropWhile pyIsSpace).reverse

/-- Python str.strip(). -/
def pyStrip (s : String) : String := String.mk (pyStripL s.data)

/-- Python str.lower() (the values compared here are ASCII). -/
def pyLower (s : String) : String := String.mk (s.data.map Char.toLower)

/-- Python str.split(sep) for a one-character separator: split at every
occurrence of the separator; the result always has at least one field. -/
def pySplitChar (sep : Char) : List Char → List (List Char)
  | [] => [[]]
  | c :: rest =>
    if c = sep then [] :: pySplitChar sep rest
    else
      match pySplitChar sep rest with
      | t :: ts => (c :: t) :: ts
      | [] => [[c]]

/-- Python substring containment (pat in l). -/
def containsSubstr (l pat : List Char) : Bool :=
  (List.range (l.length + 1)).any (fun i => pat.isPrefixOf (l.drop i))

/-- os.path.basename: the part of a path after the last slash. -/
def basenameP (s : String) : String :=
  String.mk ((s.data.reverse.takeWhile (fun c => ¬ c = '/')).reverse)

/-- os.path.join for a directory (no trailing slash) and a relative name,
as used by restore_vm_dirs on the names announced by the demultiplexer. -/
def joinP (dir file : String) : String := dir ++ "/" ++ file

/-- Python str.rstrip(chars): remove every trailing character that belongs
to the given character set (NOT suffix removal). -/
def pyRstrip (s : String) (chars : List Char) : String :=
  String.mk ((s.data.reverse.dropWhile (fun c => chars.contains c)).reverse)

/-- The QubesException sites of the embedded fragment of backup.py,
as distinguishable error kinds. -/
inductive QErr where
  | expectedHmacName (filename hmacfile : String)
  | verifyFileError (filename stderr : String)
  | invalidHmacFile
  | invalidHmac (filename computed : String)
  | corruptHeader
  | invalidHeaderLine (line : String)
  | prematureHeaderEnd
  | planInvalid
  | noBackupDir
  | headerHmacFailed
  | stageFailure (which : String)
  | sendFailed
  | outOfIters
  | assertionError
deriving DecidableEq

/-- Boolean success test for Except results. -/
def exceptOk {α : Type} : Except QErr α → Bool
  | .ok _ => true
  | .error _ => false

/-- Core of load_hmac (backup.py lines 1136-1143), applied to the already
stripped content: hmac = content.strip().split("="); if len(hmac) > 1 the
result is hmac[1].strip() (the field between the first and the second '='),
otherwise a QubesException is raised. -/
def load_hmac_core (l : List Char) : Except QErr String :=
  match pySplitChar '=' l with
  | _ :: second :: _ => .ok (String.mk (pyStripL second))
  | _ => .error .invalidHmacFile

/-- load_hmac (backup.py lines 1136-1143). -/
def load_hmac (content : String) : Except QErr String :=
  load_hmac_core (pyStripL content.data)

/-- The parser exactly as the specification words it, for comparison with
load_hmac: split on the FIRST '=' only and return the ENTIRE trailing
token, stripped. -/
def load_hmac_spec (content : String) : Except QErr String :=
  match (pyStripL content.data).dropWhile (fun c => ¬ c = '=') with
  | _ :: rest => .ok (String.mk (pyStripL rest))
  | [] => .error .invalidHmacFile

/-- verify_hmac (backup.py lines 674-707).  The openssl invocation is
represented by its observed stdout and stderr; the contents of the supplied
.hmac file is a parameter.  The returned list is the set of files unlinked
(os.unlink(hmacfile) happens exactly on the success path).
Control flow of the source, in order:
  1. hmacfile != filename + ".hmac"  -> raise;
  2. len(stderr of the digest tool) > 0 -> raise;
  3. hmac := load_hmac(hmacfile contents)  (raises on malformed content);
  4. if len(hmac) > 0 and load_hmac(stdout) == hmac: unlink, return True;
  5. otherwise raise (evaluating load_hmac(stdout) in the message, which can
     itself raise when stdout is malformed). -/
def verify_hmac (hmacContent computedOut computedErr : String)
    (filename hmacfile : String) : Except QErr (Bool × List String) :=
  if hmacfile ≠ filename ++ ".hmac" then
    .error (.expectedHmacName filename hmacfile)
  else if 0 < computedErr.length then
    .error (.verifyFileError filename computedErr)
  else
    match load_hmac hmacContent with
    | .error e => .error e
    | .ok hm =>
      if 0 < hm.length then
        match load_hmac computedOut with
        | .error e => .error e
        | .ok chm =>
          if chm = hm then .ok (true, [hmacfile])
          else .error (.invalidHmac filename chm)
      else
        match load_hmac computedOut with
        | .error e => .error e
        | .ok chm => .error (.invalidHmac filename chm)

/-- get_supported_hmac_algo (backup.py lines 882-892): yield the provided
default first (when truthy), then every line of the digest tool's algorithm
listing that does not contain "=>", stripped. -/
def get_supported_hmac_algo (hmac_algorithm : String) (toolLines : List String) :
    List String :=
  (if hmac_algorithm ≠ "" then [hmac_algorithm] else []) ++
    (toolLines.filter (fun l => ¬ containsSubstr l.data ['=', '>'])).map pyStrip

/-- The header verification loop of restore_vm_dirs (lines 1002-1010): try
each candidate algorithm in order; verify_hmac returning True adopts the
algorithm and stops; a QubesException from verify_hmac is swallowed and the
next algorithm is tried. -/
def header_algo_search (tryA : String → Except QErr (Bool × List String)) :
    List String → Option String
  | [] => none
  | a :: rest =>
    match tryA a with
    | .ok r => if r.1 then some a else header_algo_search tryA rest
    | .error _ => header_algo_search tryA rest

/-- Whether one verification attempt counts as success in the loop above. -/
def tryOk (tryA : String → Except QErr (Bool × List String)) (a : String) : Bool :=
  match tryA a with
  | .ok r => r.1
  | .error _ => false

/-- Lines 1001-1013: the whole header-verification step, aborting with the
corrupted-header error when no candidate algorithm verifies. -/
def header_verify (tryA : String → Except QErr (Bool × List String))
    (default : String) (toolLines : List String) : Except QErr String :=
  match header_algo_search tryA (get_supported_hmac_algo default toolLines) with
  | some a => .ok a
  | none => .error .corruptHeader

/-- Header values: strings for the algorithm keys, booleans for the boolean
options (parse_backup_header converts those). -/
inductive HVal where
  | s (v : String)
  | b (v : Bool)
deriving DecidableEq

/-- BackupHeader.bool_options (backup.py line 55). -/
def bool_options : List String := ["encrypted", "compressed"]

/-- The four option-key strings held by BackupHeader's named class
attributes (backup.py lines 50-55).  The source's recognition test in
parse_backup_header compares each key with getattr(BackupHeader, attr) for
every attr in dir(BackupHeader); besides these four, dir() also yields
__module__, whose value is a string (the module's name) that the key is
likewise compared against — see header_known_keys and
parse_backup_header_full below for the full test. -/
def recognized_keys : List String :=
  ["encrypted", "compressed", "crypto-algorithm", "hmac-algorithm"]

/-- Python line.count('=') for a single-character pattern. -/
def countEq (line : String) : Nat :=
  (line.data.filter (fun c => c = '=')).length

/-- The key of a header line: first field of line.strip().split('='). -/
def lineKey (line : String) : String :=
  String.mk ((pySplitChar '=' (pyStripL line.data)).headD [])

/-- The value of a header line: second field of line.strip().split('=')
(exact when the line has exactly one '='). -/
def lineVal (line : String) : String :=
  String.mk (((pySplitChar '=' (pyStripL line.data)).drop 1).headD [])

/-- How a recognized key's value is stored: boolean keys test
value.lower() in ["1", "true", "yes"]; other keys keep the raw value. -/
def interpVal (key value : String) : HVal :=
  if bool_options.contains key then
    HVal.b (["1", "true", "yes"].contains (pyLower value))
  else HVal.s value

/-- One iteration of the parse_backup_header loop (backup.py lines
897-907) with the recognition test reduced to the four option keys: a line
whose '=' count differs from 1 raises; an unrecognized key is skipped; a
recognized key updates the dictionary.  This reduced parser differs from
parse_header_line_full below only on a line whose key equals the module
name; the restore path (header_phase) consults the resulting dictionary
solely for the hmac-algorithm key. -/
def parse_header_line (d : String → Option HVal) (line : String) :
    Except QErr (String → Option HVal) :=
  if countEq line ≠ 1 then .error (.invalidHeaderLine line)
  else if ¬ recognized_keys.contains (lineKey line) then .ok d
  else .ok (fun k =>
    if k = lineKey line then some (interpVal (lineKey line) (lineVal line))
    else d k)

/-- The loop of parse_backup_header over the file's lines. -/
def parse_backup_header_go : List String → (String → Option HVal) →
    Except QErr (String → Option HVal)
  | [], d => .ok d
  | l :: ls, d =>
    match parse_header_line d l with
    | .error e => .error e
    | .ok d2 => parse_backup_header_go ls d2

/-- parse_backup_header (backup.py lines 894-908) with the recognition
test reduced to the four option keys, on the list of lines returned by
readlines(); the dictionary is represented as a function.  The faithful
parser, including the __module__ entry of dir(BackupHeader), is
parse_backup_header_full below; the two differ only on lines keyed by the
module name. -/
def parse_backup_header (lines : List String) :
    Except QErr (String → Option HVal) :=
  parse_backup_header_go lines (fun _ => none)

/-- The string-valued getattr(BackupHeader, attr) results for attr in
dir(BackupHeader), against which parse_backup_header compares each line's
key: the four option attributes hold the four option-key strings, and
__module__ holds the module's name — a string too, passed here as a
parameter because it depends on how the module is packaged and imported;
the remaining dir() entries, __doc__ (None) and bool_options (a list),
never compare equal to a string key. -/
def header_known_keys (moduleName : String) : List String :=
  recognized_keys ++ [moduleName]

/-- One iteration of the parse_backup_header loop (backup.py lines
897-907) with the full dir(BackupHeader) recognition test: a line whose
'=' count differs from 1 raises; a key outside header_known_keys is
skipped; a known key — the module name included — updates the dictionary
(interpVal keys the boolean conversion on BackupHeader.bool_options
exactly as the source does). -/
def parse_header_line_full (moduleName : String) (d : String → Option HVal)
    (line : String) : Except QErr (String → Option HVal) :=
  if countEq line ≠ 1 then .error (.invalidHeaderLine line)
  else if ¬ (header_known_keys moduleName).contains (lineKey line) then .ok d
  else .ok (fun k =>
    if k = lineKey line then some (interpVal (lineKey line) (lineVal line))
    else d k)

/-- The loop of parse_backup_header over the file's lines, with the full
recognition test. -/
def parse_backup_header_go_full (moduleName : String) :
    List String → (String → Option HVal) → Except QErr (String → Option HVal)
  | [], d => .ok d
  | l :: ls, d =>
    match parse_header_line_full moduleName d l with
    | .error e => .error e
    | .ok d2 => parse_backup_header_go_full moduleName ls d2

/-- parse_backup_header (backup.py lines 894-908) with the recognition
test modelled in full, i.e. including the __module__ entry of
dir(BackupHeader), whose module-name string is the parameter. -/
def parse_backup_header_full (moduleName : String) (lines : List String) :
    Except QErr (String → Option HVal) :=
  parse_backup_header_go_full moduleName lines (fun _ => none)

/-- HEADER_FILENAME (backup.py line 42). -/
def HEADER_FILENAME : String := "backup-header"

/-- Environment of a restore run: contents of the announced .hmac files, and
stdout/stderr of the digest tool per (algorithm, chunk path). -/
structure RestoreEnv where
  hmacFileContent : String → String
  digestOut : String → String → String
  digestErr : String → String → String

/-- One verify_hmac call of restore_vm_dirs for a given algorithm and the
joined chunk/hmac paths. -/
def tryVerify (env : RestoreEnv) (algo path hpath : String) :
    Except QErr (Bool × List String) :=
  verify_hmac (env.hmacFileContent hpath) (env.digestOut algo path)
    (env.digestErr algo path) path hpath

/-- The header phase of restore_vm_dirs (backup.py lines 979-1033), reduced
to what reaches the extraction queue: the first two announced names are the
claimed header and its hmac; empty or EOF names abort; otherwise the
candidate algorithms are tried in order; on success, when the verified file
is named backup-header it is parsed and its declared hmac-algorithm (if
any) replaces the algorithm found by the search, and nothing is enqueued;
when it is NOT the header, the verified file itself is enqueued.  The
compressed/encrypted/crypto-algorithm fields also adopted here do not
affect the queue and are omitted. -/
def header_phase (env : RestoreEnv) (tmpdir default : String)
    (toolLines : List String) (filename hmacfile : String)
    (headerLines : List String) : Except QErr (String × List String) :=
  if filename = "" ∨ filename = "EOF" ∨ hmacfile = "" ∨ hmacfile = "EOF" then
    .error .prematureHeaderEnd
  else
    match header_algo_search
        (fun a => tryVerify env a (joinP tmpdir filename) (joinP tmpdir hmacfile))
        (get_supported_hmac_algo default toolLines) with
    | none => .error .corruptHeader
    | some found =>
      if basenameP filename = HEADER_FILENAME then
        match parse_backup_header headerLines with
        | .error e => .error e
        | .ok d =>
          match d "hmac-algorithm" with
          | some (.s v) => .ok (v, [])
          | _ => .ok (found, [])
      else .ok (found, [joinP tmpdir filename])

/-- The main announcement loop of restore_vm_dirs (backup.py lines
1050-1087), as the list of chunk paths put on the extraction queue: an
empty or EOF filename or hmac name stops the loop; a filename that starts
with none of the selected directories is unlinked and skipped; otherwise
verify_hmac runs on the joined paths and the chunk path is enqueued exactly
when it returns True (its exception aborts the whole loop). -/
def restore_loop (env : RestoreEnv) (tmpdir algo : String)
    (vms_dirs : List String) : List (String × String) → Except QErr (List String)
  | [] => .ok []
  | (f, h) :: rest =>
    if f = "" ∨ f = "EOF" then .ok []
    else if h = "" ∨ h = "EOF" then .ok []
    else if ¬ vms_dirs.any (fun d => d.data.isPrefixOf f.data) then
      restore_loop env tmpdir algo vms_dirs rest
    else
      match tryVerify env algo (joinP tmpdir f) (joinP tmpdir h) with
      | .error e => .error e
      | .ok r =>
        match restore_loop env tmpdir algo vms_dirs rest with
        | .error e => .error e
        | .ok qs => .ok (if r.1 then joinP tmpdir f :: qs else qs)

/-- Everything restore_vm_dirs puts on the extraction queue, in order: the
optional header phase (present when vms_dirs starts with the header
filename) followed by the main loop, the main loop using the algorithm the
header phase adopted. -/
def restore_vm_dirs_queue (env : RestoreEnv) (tmpdir default : String)
    (toolLines : List String)
    (headerFirst : Option (String × String × List String))
    (vms_dirs : List String) (anns : List (String × String)) :
    Except QErr (List String) :=
  match headerFirst with
  | none => restore_loop env tmpdir default vms_dirs anns
  | some (fn, hf, hlines) =>
    match header_phase env tmpdir default toolLines fn hf hlines with
    | .error e => .error e
    | .ok (algo, q0) =>
      match restore_loop env tmpdir algo vms_dirs anns with
      | .error e => .error e
      | .ok q => .ok (q0 ++ q)

/-- Environment of one wait_backup_feedback run (backup.py lines 611-672):
the length of the buffer each read of in_stream returns, and for each
monitored process a poll function per iteration (none while the process is
absent, otherwise: poll k = none while still running at iteration k, some
rc once exited with code rc). -/
structure WBFEnv where
  read : Nat → Nat
  hmacPoll : Option (Nat → Option Int)
  addprocPoll : Option (Nat → Option Int)
  vmprocPoll : Option (Nat → Option Int)
  streamprocPoll : Option (Nat → Option Int)

/-- Outcome of one iteration of the wait_backup_feedback while loop: either
the function returns a value (Python returns run_error, a string, or falls
off the loop returning None), or the loop body completes and the loop
condition is re-evaluated as true. -/
inductive WBFStep where
  | ret (v : Option String)
  | again
deriving DecidableEq

/-- The run_error contribution of one monitored process: its name when it
has exited nonzero at this iteration, none otherwise. -/
def procError (p : Option (Nat → Option Int)) (k : Nat) (name : String) :
    Option String :=
  match p with
  | none => none
  | some f =>
    match f k with
    | some rc => if rc ≠ 0 then some name else none
    | none => none

/-- The run_count contribution of one monitored process: 1 while it is
present and still running, 0 otherwise (vmproc never contributes). -/
def pollCount (p : Option (Nat → Option Int)) (k : Nat) : Nat :=
  match p with
  | none => 0
  | some f =>
    match f k with
    | some _ => 0
    | none => 1

/-- One iteration of the wait_backup_feedback loop, in source order: read
the buffer; poll hmac, addproc, vmproc (each failing poll overwrites
run_error, so the last failing one wins); then either the streamproc branch
(a nonzero exit breaks returning "streamproc"; exit 0 with an empty buffer
returns ""; otherwise run_count gains 1 so only a set run_error ends the
loop) or, with no streamproc, an empty buffer returns "" and otherwise the
loop continues exactly when some process is still running and run_error is
unset.  The writes of the buffer to backup_target and to the hmac stdin end
the body and do not affect control flow or the returned value. -/
def wbf_iter (env : WBFEnv) (k : Nat) : WBFStep :=
  let buf := env.read k
  let re1 := procError env.hmacPoll k "hmac"
  let re2 := procError env.addprocPoll k "addproc"
  let re3 := procError env.vmprocPoll k "VM"
  let re := match re3 with
    | some e => some e
    | none =>
      match re2 with
      | some e => some e
      | none => re1
  match env.streamprocPoll with
  | some p =>
    match p k with
    | some rc =>
      if rc ≠ 0 then .ret (some "streamproc")
      else if buf = 0 then .ret (some "")
      else if re = none then .again else .ret re
    | none => if re = none then .again else .ret re
  | none =>
    if buf = 0 then .ret (some "")
    else if 0 < pollCount env.hmacPoll k + pollCount env.addprocPoll k ∧ re = none
    then .again
    else .ret re

/-- wait_backup_feedback as iterated wbf_iter with fuel (the Python loop
need not terminate; none means the loop was still running when the fuel ran
out). -/
def wait_backup_feedback (env : WBFEnv) : Nat → Nat → Option (Option String)
  | 0, _ => none
  | fuel + 1, k =>
    match wbf_iter env k with
    | .ret v => some v
    | .again => wait_backup_feedback env fuel (k + 1)

/-- One entry of files_to_backup: a path, its measured size and the archive
subdirectory. -/
structure Entry where
  path : String
  size : Nat
  subdir : String
deriving DecidableEq

/-- file_to_backup (backup.py lines 69-82).  When a subdir is given, a
nonempty subdir not ending in '/' gets one appended.  When subdir is None
it is derived by partitioning the file's absolute directory (always ending
in '/', being dirname + '/') by the absolute base directory; the two
asserts demand that the base is a prefix, leaving the remainder. -/
def file_to_backup (file_path : String) (sz : Nat) (subdir : Option String)
    (abs_file_dir abs_base_dir : String) : Except QErr Entry :=
  match subdir with
  | some sd =>
    if 0 < sd.data.length ∧ ¬ sd.data.getLast? = some '/' then
      .ok ⟨file_path, sz, sd ++ "/"⟩
    else .ok ⟨file_path, sz, sd⟩
  | none =>
    if abs_base_dir.data.isPrefixOf abs_file_dir.data then
      .ok ⟨file_path, sz, String.mk (abs_file_dir.data.drop abs_base_dir.data.length)⟩
    else .error .assertionError

/-- The final assertion loop of backup_prepare (backup.py lines 308-312):
every returned entry must have an empty subdir or one ending in '/'. -/
def backup_prepare_assert (files : List Entry) : Except QErr (List Entry) :=
  if files.all (fun e => e.subdir.data.length = 0 ∨ e.subdir.data.getLast? = some '/')
  then .ok files
  else .error .assertionError

/-- The externally visible effects of a backup_do run, in program order. -/
inductive BEff where
  | vmprocStart
  | openOutput
  | feedbackTmpfile
  | mkdtemp
  | mkfifo
  | writeHeaderFile
  | headerHmacFile
  | sendWorkerStart
  | enqueueHeader
  | enqueueHeaderHmac
  | makedirs (file : Nat)
  | openChunk (file chunk : Nat)
  | enqueueChunk (file chunk : Nat)
  | writeChunkHmac (file chunk : Nat)
  | enqueueChunkHmac (file chunk : Nat)
  | sendTerminate
  | enqueueFinished
  | rmtreeTmp
deriving DecidableEq

/-- Scripted outcome of one pass of the inner chunk loop of backup_do: the
run_error wait_backup_feedback returned for this chunk ("" is success) and
whether tar_sparse.poll() was non-None (tar exited) afterwards. -/
structure ChunkIter where
  runError : String
  tarExited : Bool
deriving DecidableEq

/-- Environment of a backup_do run. -/
structure BackupEnv where
  appvm : Bool
  baseDirExists : Bool
  headerHmacOk : Bool
  iters : Nat → List ChunkIter
  sendExit : Int

/-- The inner while loop of backup_do for one file (backup.py lines
489-581): open the chunk file, run the pipeline; a nonempty run_error
terminates the send worker and raises; otherwise the chunk is enqueued, its
hmac file written and enqueued, and the loop repeats while tar_sparse has
not exited. -/
def chunkLoop (iters : List ChunkIter) (f i : Nat) : List BEff × Option QErr :=
  match iters with
  | [] => ([], some .outOfIters)
  | it :: rest =>
    if it.runError ≠ "" then
      ([.openChunk f i, .sendTerminate], some (.stageFailure it.runError))
    else
      let effs := [.openChunk f i, .enqueueChunk f i, .writeChunkHmac f i,
        .enqueueChunkHmac f i]
      if it.tarExited then (effs, none)
      else
        match chunkLoop rest f (i + 1) with
        | (e2, r) => (effs ++ e2, r)

/-- The per-file loop of backup_do (backup.py lines 453-581): ensure the
chunk directory exists, then run the chunk loop; its error aborts the whole
backup. -/
def filesLoop (env : BackupEnv) : List Entry → Nat → List BEff × Option QErr
  | [], _ => ([], none)
  | _ :: rest, f =>
    match chunkLoop (env.iters f) f 0 with
    | (ceffs, some e) => (.makedirs f :: ceffs, some e)
    | (ceffs, none) =>
      match filesLoop env rest (f + 1) with
      | (reffs, r) => (.makedirs f :: ceffs ++ reffs, r)

/-- The setup of backup_do before the per-file loop (backup.py lines
386-451), in source order: the appvm service process or the local output
file (the local branch first checks that the backup directory exists),
the feedback tempfile, mkdtemp, mkfifo, the header file and its hmac
(prepare_backup_header raises when the digest tool fails, after both files
were created), the send worker, and the two header enqueues. -/
def backup_pre (env : BackupEnv) : List BEff × Option QErr :=
  if env.appvm then
    if ¬ env.headerHmacOk then
      ([.vmprocStart, .feedbackTmpfile, .mkdtemp, .mkfifo, .writeHeaderFile,
        .headerHmacFile], some .headerHmacFailed)
    else
      ([.vmprocStart, .feedbackTmpfile, .mkdtemp, .mkfifo, .writeHeaderFile,
        .headerHmacFile, .sendWorkerStart, .enqueueHeader, .enqueueHeaderHmac],
       none)
  else if ¬ env.baseDirExists then ([], some .noBackupDir)
  else if ¬ env.headerHmacOk then
    ([.openOutput, .feedbackTmpfile, .mkdtemp, .mkfifo, .writeHeaderFile,
      .headerHmacFile], some .headerHmacFailed)
  else
    ([.openOutput, .feedbackTmpfile, .mkdtemp, .mkfifo, .writeHeaderFile,
      .headerHmacFile, .sendWorkerStart, .enqueueHeader, .enqueueHeaderHmac],
     none)

/-- backup_do (backup.py lines 374-595) as an effect trace plus optional
error.  The compressed-and-encrypted rejection (lines 382-384) is the very
first statement after summing the plan sizes; every failure path thereafter
raises without reaching the final shutil.rmtree of the working directory
(line 595), which only runs after FINISHED is enqueued and the send worker
has exited with code 0.  backup_do performs no validation of the entries'
subdir fields. -/
def backup_do (env : BackupEnv) (files : List Entry)
    (compressed encrypted : Bool) : List BEff × Option QErr :=
  if compressed && encrypted then ([], some .planInvalid)
  else
    match backup_pre env with
    | (effs, some e) => (effs, some e)
    | (effs, none) =>
      match filesLoop env files 0 with
      | (feffs, some e) => (effs ++ feffs, some e)
      | (feffs, none) =>
        if env.sendExit ≠ 0 then
          (effs ++ feffs ++ [.enqueueFinished], some .sendFailed)
        else (effs ++ feffs ++ [.enqueueFinished, .rmtreeTmp], none)

/-- Environment of a backup_restore_do run: whether restore_vm_dirs raised,
and whether the dom0-home phase raised (its os.mkdir / shutil.move are not
wrapped in try).  The per-VM restoration loop catches its own exceptions
(backup.py lines 1632-1637) and therefore cannot abort the run. -/
structure RestoreDoEnv where
  restoreVmDirsErr : Option QErr
  dom0Err : Option QErr

/-- The externally visible phases of backup_restore_do. -/
inductive REff where
  | restoreVmDirsRun
  | vmRestoreLoop
  | dom0Restore
  | rmtreeRestoreTmp
deriving DecidableEq

/-- backup_restore_do (backup.py lines 1521-1695) as an effect trace plus
optional error: for format version 2 restore_vm_dirs runs first and its
exception propagates immediately; then the per-VM loop (whose errors are
caught), then, when dom0 is selected and good to go, the dom0-home phase;
shutil.rmtree(restore_tmpdir) (line 1695) is the last statement and is
reached only when nothing raised. -/
def backup_restore_do (env : RestoreDoEnv) (formatVersion2 dom0Good : Bool) :
    List REff × Option QErr :=
  if formatVersion2 then
    match env.restoreVmDirsErr with
    | some e => ([.restoreVmDirsRun], some e)
    | none =>
      if dom0Good then
        match env.dom0Err with
        | some e => ([.restoreVmDirsRun, .vmRestoreLoop, .dom0Restore], some e)
        | none =>
          ([.restoreVmDirsRun, .vmRestoreLoop, .dom0Restore, .rmtreeRestoreTmp],
           none)
      else ([.restoreVmDirsRun, .vmRestoreLoop, .rmtreeRestoreTmp], none)
  else
    if dom0Good then
      match env.dom0Err with
      | some e => ([.vmRestoreLoop, .dom0Restore], some e)
      | none => ([.vmRestoreLoop, .dom0Restore, .rmtreeRestoreTmp], none)
    else ([.vmRestoreLoop, .rmtreeRestoreTmp], none)

/-- The archive member name ExtractWorker passes to the inner tar for a
chunk whose name ends in ".000" (backup.py line 794), before os.path.relpath:
filename.rstrip('.000'), i.e. Python rstrip with the character SET
containing '.' and '0'. -/
def tar2_member_arg (filename : String) : String :=
  pyRstrip filename ['.', '0']

theorem pySplitChar_not_mem (c : Char) (l : List Char) (h : c ∉ l) :
    pySplitChar c l = [l] := by
  induction l with
  | nil => rfl
  | cons a t ih =>
    have ha : ¬ a = c := fun e => h (e ▸ List.mem_cons_self a t)
    have ht : c ∉ t := fun m => h (List.mem_cons_of_mem a m)
    simp [pySplitChar, ha, ih ht]

theorem pySplitChar_sep_append (c : Char) (k v : List Char) (h : c ∉ k) :
    pySplitChar c (k ++ c :: v) = k :: pySplitChar c v := by
  induction k with
  | nil => simp [pySplitChar]
  | cons a t ih =>
    have ha : ¬ a = c := fun e => h (e ▸ List.mem_cons_self a t)
    have ht : c ∉ t := fun m => h (List.mem_cons_of_mem a m)
    simp only [List.cons_append, pySplitChar, ha, if_false, List.append_eq, ih ht]

/-- C10: the archive member name handed to the inner extraction tar for a
chunk named <logical>.000 is NOT always the logical name: rstrip('.000')
strips every trailing '.' and '0', so the logical file "vm1/file0" (chunk
"vm1/file0.000") is turned into "vm1/file", while an ordinary name such as
"vm1/private.img.000" happens to survive.  This evaluates the code at the
failing input. -/
theorem spec_c10_rstrip_eval :
    tar2_member_arg "vm1/file0.000" = "vm1/file" ∧
    ¬ tar2_member_arg "vm1/file0.000" = "vm1/file0" ∧
    tar2_member_arg "vm1/private.img.000" = "vm1/private.img" := by
  refine ⟨by decide, by decide, by decide⟩

/-- C6 counterexample: on content with a second '=', load_hmac returns the
field BETWEEN the first and second '=' ("a"), not the entire trailing token
after the first '=' ("a=b") that the claim describes (load_hmac_spec stands
for the claim's wording). -/
theorem spec_c6_cex :
    load_hmac "k=a=b" = .ok "a" ∧
    load_hmac_spec "k=a=b" = .ok "a=b" ∧
    ¬ ("a" : String) = "a=b" := by
  refine ⟨rfl, rfl, by decide⟩

/-- C6 amended: load_hmac strips the content, splits it at EVERY '=', and
returns the second field stripped — the token between the first and the
second '=' — raising the invalid-hmac-file error when the content has no
'=' at all. -/
theorem spec_c6_amended (k v rest : List Char)
    (hk : '=' ∉ k) (hv : '=' ∉ v) :
    load_hmac_core (k ++ '=' :: v) = .ok (String.mk (pyStripL v)) ∧
    load_hmac_core (k ++ '=' :: (v ++ '=' :: rest)) = .ok (String.mk (pyStripL v)) ∧
    load_hmac_core k = .error .invalidHmacFile ∧
    ∀ content : String, load_hmac content = load_hmac_core (pyStripL content.data) := by
  refine ⟨?_, ?_, ?_, fun _ => rfl⟩
  · rw [load_hmac_core, pySplitChar_sep_append '=' k v hk, pySplitChar_not_mem '=' v hv]
  · rw [load_hmac_core, pySplitChar_sep_append '=' k (v ++ '=' :: rest) hk,
      pySplitChar_sep_append '=' v rest hv]
  · rw [load_hmac_core, pySplitChar_not_mem '=' k hk]

/-- Witness for spec_c6_amended at a concrete input. -/
theorem spec_c6_amended_witness :
    load_hmac_core (['k'] ++ '=' :: ['a']) = .ok "a" ∧
    load_hmac_core (['k'] ++ '=' :: (['a'] ++ '=' :: ['b'])) = .ok "a" := by
  have h := spec_c6_amended ['k'] ['a'] ['b'] (by decide) (by decide)
  exact ⟨h.1, h.2.1⟩

/-- C5: backup_do rejects a plan requesting both compression and encryption
as its first act: the result is the plan-invalid error with an EMPTY effect
trace — no output file opened, no working directory created, nothing
written or enqueued. -/
theorem spec_c5_reject_before_effects (env : BackupEnv) (files : List Entry) :
    backup_do env files true true = ([], some .planInvalid) := rfl

/-- C2: verify_hmac raises whenever the hmac file name differs from
filename + ".hmac"; a result is ever returned only as True together with
the deletion of the .hmac file, and only when the supplied hmac file parses
to a NONEMPTY token equal to the token parsed (by the same load_hmac
parser) out of the recomputed digest output; with matching names it raises
when the supplied hmac file is malformed, parses to an empty token, or
parses to a token different from the recomputed one. -/
theorem spec_c2_verify_hmac (hc co ce fn hf : String) :
    (¬ hf = fn ++ ".hmac" →
      verify_hmac hc co ce fn hf = .error (.expectedHmacName fn hf)) ∧
    (∀ r, verify_hmac hc co ce fn hf = .ok r →
      hf = fn ++ ".hmac" ∧ ce.length = 0 ∧ r = (true, [hf]) ∧
      ∃ hm, load_hmac hc = .ok hm ∧ 0 < hm.length ∧ load_hmac co = .ok hm) ∧
    (hf = fn ++ ".hmac" → load_hmac hc = .error .invalidHmacFile →
      ∀ r, ¬ verify_hmac hc co ce fn hf = .ok r) ∧
    (hf = fn ++ ".hmac" → ∀ hm, load_hmac hc = .ok hm → hm.length = 0 →
      ∀ r, ¬ verify_hmac hc co ce fn hf = .ok r) ∧
    (hf = fn ++ ".hmac" → ∀ hm chm, load_hmac hc = .ok hm →
      load_hmac co = .ok chm → ¬ chm = hm →
      ∀ r, ¬ verify_hmac hc co ce fn hf = .ok r) := by
  refine ⟨?_, ?_, ?_, ?_, ?_⟩
  · intro hne
    simp [verify_hmac, hne]
  · intro r hr
    unfold verify_hmac at hr
    by_cases hne : hf = fn ++ ".hmac"
    · subst hne
      rw [if_neg (by simp : ¬ (fn ++ ".hmac" ≠ fn ++ ".hmac"))] at hr
      split at hr
      · exact absurd hr (by simp)
      next hce =>
        split at hr
        next e hlh => exact absurd hr (by simp)
        next hm hlh =>
          split at hr
          next hhm =>
            split at hr
            next e hco => exact absurd hr (by simp)
            next chm hco =>
              split at hr
              next heqt =>
                cases hr
                exact ⟨rfl, by omega, rfl, hm, hlh, hhm, by rw [hco, heqt]⟩
              next heqt => exact absurd hr (by simp)
          next hhm =>
            split at hr
            next e hco => exact absurd hr (by simp)
            next chm hco => exact absurd hr (by simp)
    · rw [if_pos (by simpa using hne)] at hr
      exact absurd hr (by simp)
  · intro heq hbad r hr
    unfold verify_hmac at hr
    subst heq
    rw [if_neg (by simp : ¬ (fn ++ ".hmac" ≠ fn ++ ".hmac")), hbad] at hr
    split at hr
    · exact absurd hr (by simp)
    · exact absurd hr (by simp)
  · intro heq hm hlh hlen r hr
    unfold verify_hmac at hr
    subst heq
    rw [if_neg (by simp : ¬ (fn ++ ".hmac" ≠ fn ++ ".hmac"))] at hr
    split at hr
    · exact absurd hr (by simp)
    next hce =>
      split at hr
      next e h2 => exact absurd hr (by simp)
      next hm2 h2 =>
        rw [hlh] at h2
        injection h2 with h3
        subst h3
        rw [if_neg (by omega : ¬ 0 < hm.length)] at hr
        split at hr
        next e hco2 => exact absurd hr (by simp)
        next chm hco2 => exact absurd hr (by simp)
  · intro heq hm chm hlh hco hne r hr
    unfold verify_hmac at hr
    subst heq
    rw [if_neg (by simp : ¬ (fn ++ ".hmac" ≠ fn ++ ".hmac"))] at hr
    split at hr
    · exact absurd hr (by simp)
    next hce =>
      split at hr
      next e h2 => rw [hlh] at h2; cases h2
      next hm2 h2 =>
        rw [hlh] at h2
        injection h2 with h3
        subst h3
        split at hr
        next hhm =>
          split at hr
          next e h4 => rw [hco] at h4; cases h4
          next chm2 h4 =>
            rw [hco] at h4
            injection h4 with h5
            subst h5
            rw [if_neg hne] at hr
            exact absurd hr (by simp)
        next hhm =>
          split at hr
          next e h4 => exact absurd hr (by simp)
          next chm2 h4 => exact absurd hr (by simp)

/-- Witness for spec_c2_verify_hmac: a mismatching name raises, and a
matching name with agreeing nonempty tokens succeeds, deleting the file. -/
theorem spec_c2_verify_hmac_witness :
    verify_hmac "k= ab" "c= ab" "" "f" "g" = .error (.expectedHmacName "f" "g") ∧
    (verify_hmac "k= ab" "c= ab" "" "f" "f.hmac" = .ok (true, ["f.hmac"]) →
      ∃ hm, load_hmac "k= ab" = .ok hm ∧ 0 < hm.length ∧ load_hmac "c= ab" = .ok hm) := by
  constructor
  · exact (spec_c2_verify_hmac "k= ab" "c= ab" "" "f" "g").1 (by decide)
  · intro h
    exact (((spec_c2_verify_hmac "k= ab" "c= ab" "" "f" "f.hmac").2.1 _ h)).2.2.2

theorem header_algo_search_some
    (tryA : String → Except QErr (Bool × List String)) (l : List String)
    (a : String) (h : header_algo_search tryA l = some a) :
    tryOk tryA a = true ∧
    ∃ pre post, l = pre ++ a :: post ∧ ∀ b ∈ pre, tryOk tryA b = false := by
  induction l with
  | nil => cases h
  | cons x rest ih =>
    unfold header_algo_search at h
    split at h
    next r hx =>
      split at h
      next hr =>
        injection h with h2
        subst h2
        refine ⟨by simp [tryOk, hx, hr], [], rest, rfl, ?_⟩
        intro b hb
        simp at hb
      next hr =>
        rcases ih h with ⟨hok, pre, post, hl, hpre⟩
        refine ⟨hok, x :: pre, post, by rw [hl]; rfl, ?_⟩
        intro b hb
        rcases List.mem_cons.mp hb with h1 | h2
        · subst h1
          simp [tryOk, hx]
          simpa using hr
        · exact hpre b h2
    next e hx =>
      rcases ih h with ⟨hok, pre, post, hl, hpre⟩
      refine ⟨hok, x :: pre, post, by rw [hl]; rfl, ?_⟩
      intro b hb
      rcases List.mem_cons.mp hb with h1 | h2
      · subst h1
        simp [tryOk, hx]
      · exact hpre b h2

theorem header_algo_search_none
    (tryA : String → Except QErr (Bool × List String)) (l : List String)
    (h : ∀ a ∈ l, tryOk tryA a = false) :
    header_algo_search tryA l = none := by
  induction l with
  | nil => rfl
  | cons x rest ih =>
    have hx := h x (List.mem_cons_self x rest)
    have hrest := ih (fun a ha => h a (List.mem_cons_of_mem x ha))
    unfold header_algo_search
    cases hxx : tryA x with
    | ok r =>
      have hr : r.1 = false := by simpa [tryOk, hxx] using hx
      simp [hxx, hr, hrest]
    | error e => simp [hxx, hrest]

/-- Environment for the C3 counterexample: the digest of the header file
matches its hmac file under "SHA1" only, and the verified header file
declares hmac-algorithm=MD5. -/
def envC3 : RestoreEnv :=
  { hmacFileContent := fun _ => "x= aa"
    digestOut := fun a _ => if a = "SHA1" then "y= aa" else "y= bb"
    digestErr := fun _ _ => "" }

/-- C3 counterexample: the caller's default "SHA1" is the first (and here
only) candidate that verifies the header, but the algorithm adopted for
verifying subsequent chunks is the header's declared "MD5", not "SHA1" —
restore_vm_dirs overwrites the found algorithm with the header's
hmac-algorithm field (backup.py lines 1018-1019), so the claim as stated
fails. -/
theorem spec_c3_cex :
    header_algo_search
      (fun a => tryVerify envC3 a (joinP "/t" "backup-header")
        (joinP "/t" "backup-header.hmac"))
      (get_supported_hmac_algo "SHA1" []) = some "SHA1" ∧
    header_phase envC3 "/t" "SHA1" [] "backup-header" "backup-header.hmac"
      ["hmac-algorithm=MD5\n"] = .ok ("MD5", []) ∧
    ¬ ("MD5" : String) = "SHA1" := by
  refine ⟨rfl, rfl, by decide⟩

/-- C3 amended: header verification tries the caller's default algorithm
first and then every algorithm enumerated by the digest tool, in that
order; the search succeeds exactly on the first candidate that verifies
and yields the corrupted-header error when none does; the adopted
algorithm for subsequent chunks is the found one UNLESS the verified file
is the backup header and declares an hmac-algorithm, in which case the
declared value replaces it. -/
theorem spec_c3_amended :
    (∀ (default : String) (toolLines : List String), ¬ default = "" →
      (get_supported_hmac_algo default toolLines).head? = some default ∧
      ∀ l ∈ toolLines, containsSubstr l.data ['=', '>'] = false →
        pyStrip l ∈ get_supported_hmac_algo default toolLines) ∧
    (∀ tryA algos a, header_algo_search tryA algos = some a →
      tryOk tryA a = true ∧
      ∃ pre post, algos = pre ++ a :: post ∧ ∀ b ∈ pre, tryOk tryA b = false) ∧
    (∀ (tryA : String → Except QErr (Bool × List String)) default toolLines,
      (∀ a ∈ get_supported_hmac_algo default toolLines, tryOk tryA a = false) →
      header_verify tryA default toolLines = .error .corruptHeader) ∧
    (∀ env tmpdir default toolLines fn hf hlines algo q,
      header_phase env tmpdir default toolLines fn hf hlines = .ok (algo, q) →
      ∃ found,
        header_algo_search
          (fun a => tryVerify env a (joinP tmpdir fn) (joinP tmpdir hf))
          (get_supported_hmac_algo default toolLines) = some found ∧
        (algo = found ∨ (basenameP fn = HEADER_FILENAME ∧
          ∃ d, parse_backup_header hlines = .ok d ∧
            d "hmac-algorithm" = some (.s algo)))) := by
  refine ⟨?_, ?_, ?_, ?_⟩
  · intro default toolLines hdef
    constructor
    · rw [get_supported_hmac_algo, if_pos hdef]
      rfl
    · intro l hl hcont
      rw [get_supported_hmac_algo]
      refine List.mem_append_right _ ?_
      refine List.mem_map_of_mem pyStrip ?_
      refine List.mem_filter.mpr ⟨hl, ?_⟩
      simp [hcont]
  · exact header_algo_search_some
  · intro tryA default toolLines h
    rw [header_verify, header_algo_search_none tryA _ h]
  · intro env tmpdir default toolLines fn hf hlines algo q h
    unfold header_phase at h
    split at h
    · cases h
    · split at h
      next hsearch => cases h
      next found hsearch =>
        refine ⟨found, hsearch, ?_⟩
        split at h
        next hbase =>
          split at h
          next e hparse => cases h
          next d hparse =>
            split at h
            next v hd =>
              injection h with h2
              have h3 : v = algo := congrArg Prod.fst h2
              subst h3
              exact Or.inr ⟨hbase, d, hparse, hd⟩
            next hd =>
              injection h with h2
              exact Or.inl (congrArg Prod.fst h2).symm
        next hbase =>
          injection h with h2
          exact Or.inl (congrArg Prod.fst h2).symm

/-- Witness for spec_c3_amended: the default is the first candidate, a
failing verifier yields the corrupted-header error, and a successful
search is characterized at a concrete list. -/
theorem spec_c3_amended_witness :
    (get_supported_hmac_algo "SHA1" ["MD5\n"]).head? = some "SHA1" ∧
    header_verify (fun _ => .error .corruptHeader) "SHA1" ["MD5\n"] =
      .error .corruptHeader := by
  constructor
  · exact (spec_c3_amended.1 "SHA1" ["MD5\n"] (by decide)).1
  · exact spec_c3_amended.2.2.1 (fun _ => .error .corruptHeader) "SHA1" ["MD5\n"]
      (by intro a ha; rfl)

theorem restore_loop_verified (env : RestoreEnv) (tmpdir algo : String)
    (vms_dirs : List String) :
    ∀ (anns : List (String × String)) (q : List String),
      restore_loop env tmpdir algo vms_dirs anns = .ok q →
      ∀ p ∈ q, ∃ hname r,
        tryVerify env algo p (joinP tmpdir hname) = .ok r ∧ r.1 = true := by
  intro anns
  induction anns with
  | nil =>
    intro q h p hp
    unfold restore_loop at h
    injection h with h2
    subst h2
    simp at hp
  | cons a rest ih =>
    intro q h p hp
    obtain ⟨f, hn⟩ := a
    unfold restore_loop at h
    split at h
    · injection h with h2; subst h2; simp at hp
    · split at h
      · injection h with h2; subst h2; simp at hp
      · split at h
        · exact ih q h p hp
        · split at h
          next e hv => cases h
          next r hv =>
            split at h
            next e hrec => cases h
            next qs hrec =>
              injection h with h2
              subst h2
              by_cases hr1 : r.1 = true
              · rw [if_pos hr1] at hp
                rcases List.mem_cons.mp hp with h1 | h2
                · subst h1
                  exact ⟨hn, r, hv, hr1⟩
                · exact ih qs hrec p h2
              · rw [if_neg hr1] at hp
                exact ih qs hrec p hp

/-- C1: every chunk path that restore_vm_dirs puts on the extraction
worker's queue — whether during the header phase or during the main
announcement loop — was first verified: verify_hmac returned True for that
very path (under some algorithm and companion hmac path) before the
enqueue.  No path reaches the queue any other way. -/
theorem spec_c1_verified_before_enqueue (env : RestoreEnv)
    (tmpdir default : String) (toolLines : List String)
    (headerFirst : Option (String × String × List String))
    (vms_dirs : List String) (anns : List (String × String)) (q : List String)
    (h : restore_vm_dirs_queue env tmpdir default toolLines headerFirst
      vms_dirs anns = .ok q) :
    ∀ p ∈ q, ∃ a hname r,
      tryVerify env a p (joinP tmpdir hname) = .ok r ∧ r.1 = true := by
  intro p hp
  cases headerFirst with
  | none =>
    rcases restore_loop_verified env tmpdir default vms_dirs anns q h p hp with
      ⟨hname, r, hv, hr⟩
    exact ⟨default, hname, r, hv, hr⟩
  | some trip =>
    obtain ⟨fn, hf, hlines⟩ := trip
    unfold restore_vm_dirs_queue at h
    cases hhp : header_phase env tmpdir default toolLines fn hf hlines with
    | error e => simp only [hhp] at h; exact absurd h (by simp)
    | ok pr =>
      obtain ⟨halgo, q0⟩ := pr
      simp only [hhp] at h
      cases hrl : restore_loop env tmpdir halgo vms_dirs anns with
      | error e => simp only [hrl] at h; exact absurd h (by simp)
      | ok qq =>
        simp only [hrl] at h
        injection h with h2
        subst h2
        rcases List.mem_append.mp hp with hp0 | hp1
        · unfold header_phase at hhp
          split at hhp
          · cases hhp
          · split at hhp
            next hsearch => cases hhp
            next found hsearch =>
              split at hhp
              next hbase =>
                split at hhp
                next e hparse => cases hhp
                next d hparse =>
                  split at hhp
                  next v hd =>
                    injection hhp with h3
                    have h4 : q0 = [] := (congrArg Prod.snd h3).symm
                    rw [h4] at hp0
                    simp at hp0
                  next hd =>
                    injection hhp with h3
                    have h4 : q0 = [] := (congrArg Prod.snd h3).symm
                    rw [h4] at hp0
                    simp at hp0
              next hbase =>
                injection hhp with h3
                have h4 : q0 = [joinP tmpdir fn] := (congrArg Prod.snd h3).symm
                rw [h4] at hp0
                have h5 : p = joinP tmpdir fn := by simpa using hp0
                subst h5
                have h6 := (header_algo_search_some _ _ _ hsearch).1
                cases hv : tryVerify env found (joinP tmpdir fn) (joinP tmpdir hf) with
                | error e => simp [tryOk, hv] at h6
                | ok r =>
                  simp only [tryOk, hv] at h6
                  exact ⟨found, hf, r, hv, h6⟩
        · rcases restore_loop_verified env tmpdir halgo vms_dirs anns qq hrl p hp1 with
            ⟨hname, r, hv, hr⟩
          exact ⟨halgo, hname, r, hv, hr⟩

/-- Concrete environment for the C1 witness: every verification succeeds. -/
def envC1 : RestoreEnv :=
  { hmacFileContent := fun _ => "x= aa"
    digestOut := fun _ _ => "y= aa"
    digestErr := fun _ _ => "" }

/-- Witness for spec_c1_verified_before_enqueue at a concrete run with one
selected and verified chunk. -/
theorem spec_c1_witness :
    ∃ a hname r,
      tryVerify envC1 a "/t/vm1/f.000" (joinP "/t" hname) = .ok r ∧ r.1 = true := by
  refine spec_c1_verified_before_enqueue envC1 "/t" "SHA1" [] none ["vm"]
    [("vm1/f.000", "vm1/f.000.hmac")] ["/t/vm1/f.000"] rfl "/t/vm1/f.000" ?_
  exact List.mem_singleton.mpr rfl

theorem parse_header_line_full_ok (m : String) (d : String → Option HVal)
    (l : String) (h : countEq l = 1) :
    ∃ d2, parse_header_line_full m d l = .ok d2 := by
  unfold parse_header_line_full
  rw [if_neg (by simp [h])]
  by_cases hrec : ¬ (header_known_keys m).contains (lineKey l) = true
  · rw [if_pos hrec]; exact ⟨d, rfl⟩
  · rw [if_neg hrec]; exact ⟨_, rfl⟩

theorem parse_header_line_full_ok_char (m : String) (d : String → Option HVal)
    (l : String) (d2 : String → Option HVal)
    (h : parse_header_line_full m d l = .ok d2) :
    countEq l = 1 ∧
    ((¬ (header_known_keys m).contains (lineKey l) = true ∧ d2 = d) ∨
     ((header_known_keys m).contains (lineKey l) = true ∧
      d2 = fun k =>
        if k = lineKey l then some (interpVal (lineKey l) (lineVal l))
        else d k)) := by
  unfold parse_header_line_full at h
  split at h
  · cases h
  next hc =>
    refine ⟨not_not.mp hc, ?_⟩
    split at h
    next hrec => injection h with h2; exact Or.inl ⟨hrec, h2.symm⟩
    next hrec => injection h with h2; exact Or.inr ⟨by simpa using hrec, h2.symm⟩

theorem parse_go_full_sources (m : String) :
    ∀ (ls : List String) (d d2 : String → Option HVal),
    parse_backup_header_go_full m ls d = .ok d2 →
    (∀ l ∈ ls, countEq l = 1) ∧
    (∀ k, (d k).isSome = true → (d2 k).isSome = true) ∧
    (∀ k v, d2 k = some v →
      d k = some v ∨ ∃ l ∈ ls, lineKey l = k ∧
        (header_known_keys m).contains k = true ∧ v = interpVal k (lineVal l)) ∧
    (∀ l ∈ ls, (header_known_keys m).contains (lineKey l) = true →
      (d2 (lineKey l)).isSome = true) := by
  intro ls
  induction ls with
  | nil =>
    intro d d2 h
    unfold parse_backup_header_go_full at h
    injection h with h2
    subst h2
    exact ⟨by simp, fun k hk => hk, fun k v hv => Or.inl hv, by simp⟩
  | cons l ls ih =>
    intro d d2 h
    unfold parse_backup_header_go_full at h
    cases hpl : parse_header_line_full m d l with
    | error e => simp only [hpl] at h; exact absurd h (by simp)
    | ok dmid =>
      simp only [hpl] at h
      rcases parse_header_line_full_ok_char m d l dmid hpl with ⟨hc, hcases⟩
      rcases ih dmid d2 h with ⟨hcount, hmono, hsrc, hrec⟩
      refine ⟨?_, ?_, ?_, ?_⟩
      · intro l2 hl2
        rcases List.mem_cons.mp hl2 with h1 | h2
        · subst h1; exact hc
        · exact hcount l2 h2
      · intro k hk
        apply hmono
        rcases hcases with ⟨_, hd⟩ | ⟨hr, hd⟩
        · rw [hd]; exact hk
        · simp only [hd]
          by_cases hkk : k = lineKey l
          · simp [hkk]
          · simp only [if_neg hkk]; exact hk
      · intro k v hv
        rcases hsrc k v hv with h1 | ⟨l2, hl2, hk2, hr2, hv2⟩
        · rcases hcases with ⟨_, hd⟩ | ⟨hr, hd⟩
          · rw [hd] at h1; exact Or.inl h1
          · simp only [hd] at h1
            by_cases hkk : k = lineKey l
            · rw [if_pos hkk] at h1
              injection h1 with h3
              refine Or.inr ⟨l, List.mem_cons_self l ls, hkk.symm, ?_, ?_⟩
              · rw [hkk]; exact hr
              · rw [hkk]; exact h3.symm
            · rw [if_neg hkk] at h1; exact Or.inl h1
        · exact Or.inr ⟨l2, List.mem_cons_of_mem l hl2, hk2, hr2, hv2⟩
      · intro l2 hl2 hrl2
        rcases List.mem_cons.mp hl2 with h1 | h2
        · subst h1
          rcases hcases with ⟨hnr, hd⟩ | ⟨hr, hd⟩
          · exact absurd hrl2 hnr
          · apply hmono
            simp [hd]
        · exact hrec l2 h2 hrl2

theorem parse_go_full_ok_of_count (m : String) :
    ∀ (ls : List String) (d : String → Option HVal),
    (∀ l ∈ ls, countEq l = 1) →
    exceptOk (parse_backup_header_go_full m ls d) = true := by
  intro ls
  induction ls with
  | nil => intro d _; rfl
  | cons l ls ih =>
    intro d h
    unfold parse_backup_header_go_full
    rcases parse_header_line_full_ok m d l (h l (List.mem_cons_self l ls)) with
      ⟨d2, hd2⟩
    simp only [hd2]
    exact ih d2 (fun a ha => h a (List.mem_cons_of_mem l ha))

/-- C4 counterexample: the recognition test iterates dir(BackupHeader),
which includes the __module__ attribute, whose value is the module's name
string (here "qubes.backup"); a header line keyed by that name — an
unknown key per the claim, not among the four option keys — is therefore
RECORDED verbatim, not ignored. -/
theorem spec_c4_cex :
    (parse_backup_header_full "qubes.backup" ["qubes.backup=1\n"]).map
      (fun d => d "qubes.backup") = .ok (some (.s "1")) ∧
    countEq "qubes.backup=1\n" = 1 ∧
    recognized_keys.contains "qubes.backup" = false := by
  exact ⟨rfl, rfl, rfl⟩

/-- C4 amended: parse_backup_header succeeds exactly when every line has
exactly one '='; the keys the source recognizes are the four option keys
PLUS the string value of BackupHeader's __module__ attribute (the module
name): any recognized-key line is recorded — boolean keys mapped to true
iff the value lower-cases to one of 1/true/yes and to false otherwise,
every other recognized key, the module name included, kept verbatim —
every recorded entry stems from some line with that key, and a line with
any other key is ignored; a line with zero or two or more '=' signs
raises the corrupt-header error. -/
theorem spec_c4_amended (m : String) (lines : List String) :
    (exceptOk (parse_backup_header_full m lines) = true ↔
      ∀ l ∈ lines, countEq l = 1) ∧
    (∀ d, parse_backup_header_full m lines = .ok d →
      (∀ k v, d k = some v → (header_known_keys m).contains k = true ∧
        ∃ l ∈ lines, lineKey l = k ∧ v = interpVal k (lineVal l)) ∧
      (∀ l ∈ lines, (header_known_keys m).contains (lineKey l) = true →
        (d (lineKey l)).isSome = true)) ∧
    (∀ key value, bool_options.contains key = true →
      interpVal key value =
        HVal.b (["1", "true", "yes"].contains (pyLower value))) ∧
    (∀ key value, ¬ bool_options.contains key = true →
      interpVal key value = HVal.s value) := by
  refine ⟨?_, ?_, ?_, ?_⟩
  · constructor
    · intro h
      cases hres : parse_backup_header_full m lines with
      | error e => rw [hres] at h; exact absurd h (by simp [exceptOk])
      | ok d => exact (parse_go_full_sources m lines _ d hres).1
    · intro h
      exact parse_go_full_ok_of_count m lines _ h
  · intro d hres
    rcases parse_go_full_sources m lines _ d hres with ⟨_, _, hsrc, hrec⟩
    constructor
    · intro k v hv
      rcases hsrc k v hv with h1 | ⟨l, hl, hk, hr, hval⟩
      · cases h1
      · exact ⟨hr, l, hl, hk, hval⟩
    · exact hrec
  · intro key value h
    unfold interpVal
    rw [if_pos h]
  · intro key value h
    unfold interpVal
    rw [if_neg h]

/-- Witness for spec_c4_amended: a file whose lines all have one '='
parses successfully. -/
theorem spec_c4_amended_witness :
    exceptOk (parse_backup_header_full "backup"
      ["encrypted=yes\n", "future-option=42\n"]) = true := by
  exact (spec_c4_amended "backup" _).1.mpr (by decide)

theorem chunkLoop_no_rmtree (its : List ChunkIter) : ∀ f i,
    ¬ BEff.rmtreeTmp ∈ (chunkLoop its f i).1 := by
  induction its with
  | nil => intro f i; simp [chunkLoop]
  | cons it rest ih =>
    intro f i
    unfold chunkLoop
    by_cases hre : it.runError ≠ ""
    · rw [if_pos hre]; simp
    · rw [if_neg hre]
      by_cases hte : it.tarExited = true
      · rw [if_pos hte]; simp
      · rw [if_neg hte]
        cases hc : chunkLoop rest f (i + 1) with
        | mk e2 r =>
          have h2 := ih f (i + 1)
          rw [hc] at h2
          simp only [hc]
          simp
          simpa using h2

theorem filesLoop_no_rmtree (env : BackupEnv) : ∀ (fs : List Entry) (f : Nat),
    ¬ BEff.rmtreeTmp ∈ (filesLoop env fs f).1 := by
  intro fs
  induction fs with
  | nil => intro f; simp [filesLoop]
  | cons e rest ih =>
    intro f
    unfold filesLoop
    cases hc : chunkLoop (env.iters f) f 0 with
    | mk ceffs cr =>
      have hcl := chunkLoop_no_rmtree (env.iters f) f 0
      rw [hc] at hcl
      cases cr with
      | some err =>
        simp only [hc]
        simp
        simpa using hcl
      | none =>
        cases hr : filesLoop env rest (f + 1) with
        | mk reffs rr =>
          have hfl := ih (f + 1)
          rw [hr] at hfl
          simp only [hc, hr]
          simp
          exact ⟨by simpa using hcl, by simpa using hfl⟩

theorem backup_pre_no_rmtree (env : BackupEnv) :
    ¬ BEff.rmtreeTmp ∈ (backup_pre env).1 := by
  unfold backup_pre
  split
  · split <;> simp
  · split
    · simp
    · split <;> simp

/-- Environment for the C7 counterexample: a run whose send worker exits
nonzero after one successful chunk. -/
def envC7 : BackupEnv :=
  { appvm := false, baseDirExists := true, headerHmacOk := true
    iters := fun _ => [⟨"", true⟩], sendExit := 1 }

/-- C7 counterexample: a failing backup run (send worker exit 1) whose
effect trace does NOT contain the removal of the working directory —
backup_do has no try/finally, so shutil.rmtree(backup_tmpdir) is skipped on
every failure path, contradicting the claim that the working directory is
removed on every failure path. -/
theorem spec_c7_cex :
    (backup_do envC7 [⟨"p", 1, "vm1/"⟩] false false).2 = some .sendFailed ∧
    ¬ BEff.rmtreeTmp ∈ (backup_do envC7 [⟨"p", 1, "vm1/"⟩] false false).1 := by
  refine ⟨rfl, by decide⟩

/-- C7 amended: the working directory is removed on every SUCCESS path of
backup_do and of backup_restore_do, and on every FAILURE path it is not
removed (the rmtree is the last statement, not a finally clause). -/
theorem spec_c7_amended :
    (∀ (env : BackupEnv) (files : List Entry) (c e : Bool),
      ((backup_do env files c e).2 = none →
        BEff.rmtreeTmp ∈ (backup_do env files c e).1) ∧
      (¬ (backup_do env files c e).2 = none →
        ¬ BEff.rmtreeTmp ∈ (backup_do env files c e).1)) ∧
    (∀ (renv : RestoreDoEnv) (f2 dg : Bool),
      ((backup_restore_do renv f2 dg).2 = none →
        REff.rmtreeRestoreTmp ∈ (backup_restore_do renv f2 dg).1) ∧
      (¬ (backup_restore_do renv f2 dg).2 = none →
        ¬ REff.rmtreeRestoreTmp ∈ (backup_restore_do renv f2 dg).1)) := by
  constructor
  · intro env files c e
    unfold backup_do
    by_cases hce : (c && e) = true
    · rw [if_pos hce]
      exact ⟨fun h => absurd h (by simp), fun _ => by simp⟩
    · rw [if_neg hce]
      have hpre := backup_pre_no_rmtree env
      cases hp : backup_pre env with
      | mk peffs pr =>
        rw [hp] at hpre
        cases pr with
        | some err =>
          simp only [hp]
          exact ⟨fun h => absurd h (by simp), fun _ => by simpa using hpre⟩
        | none =>
          simp only [hp]
          have hfl := filesLoop_no_rmtree env files 0
          cases hf : filesLoop env files 0 with
          | mk feffs fr =>
            rw [hf] at hfl
            cases fr with
            | some err =>
              simp only [hf]
              refine ⟨fun h => absurd h (by simp), fun _ => ?_⟩
              simp
              exact ⟨by simpa using hpre, by simpa using hfl⟩
            | none =>
              simp only [hf]
              by_cases hs : env.sendExit ≠ 0
              · rw [if_pos hs]
                refine ⟨fun h => absurd h (by simp), fun _ => ?_⟩
                simp
                exact ⟨by simpa using hpre, by simpa using hfl⟩
              · rw [if_neg hs]
                refine ⟨fun _ => ?_, fun h => absurd rfl h⟩
                simp
  · intro renv f2 dg
    unfold backup_restore_do
    by_cases h2 : f2 = true
    · rw [if_pos h2]
      cases hr : renv.restoreVmDirsErr with
      | some e =>
        exact ⟨fun h => absurd h (by simp), fun _ => by simp⟩
      | none =>
        by_cases hg : dg = true
        · rw [if_pos hg]
          cases hd : renv.dom0Err with
          | some e => exact ⟨fun h => absurd h (by simp), fun _ => by simp⟩
          | none => exact ⟨fun _ => by simp, fun h => absurd rfl h⟩
        · rw [if_neg hg]
          exact ⟨fun _ => by simp, fun h => absurd rfl h⟩
    · rw [if_neg h2]
      by_cases hg : dg = true
      · rw [if_pos hg]
        cases hd : renv.dom0Err with
        | some e => exact ⟨fun h => absurd h (by simp), fun _ => by simp⟩
        | none => exact ⟨fun _ => by simp, fun h => absurd rfl h⟩
      · rw [if_neg hg]
        exact ⟨fun _ => by simp, fun h => absurd rfl h⟩

/-- Environment for the C7 witness: a fully successful backup run. -/
def envC7ok : BackupEnv :=
  { appvm := false, baseDirExists := true, headerHmacOk := true
    iters := fun _ => [⟨"", true⟩], sendExit := 0 }

/-- Witness for spec_c7_amended: on concrete successful backup and restore
runs the working directory removal appears in the trace. -/
theorem spec_c7_witness :
    BEff.rmtreeTmp ∈ (backup_do envC7ok [⟨"p", 1, "vm1/"⟩] false false).1 ∧
    REff.rmtreeRestoreTmp ∈ (backup_restore_do ⟨none, none⟩ true true).1 := by
  exact ⟨(spec_c7_amended.1 envC7ok [⟨"p", 1, "vm1/"⟩] false false).1 rfl,
         (spec_c7_amended.2 ⟨none, none⟩ true true).1 rfl⟩

theorem procError_ne_empty (p : Option (Nat → Option Int)) (k : Nat)
    (name : String) (hname : ¬ name = "") :
    ¬ procError p k name = some "" := by
  unfold procError
  split
  · simp
  · split
    · split
      · intro h
        injection h with h2
        exact hname h2
      · simp
    · simp

theorem runError_ne_empty (env : WBFEnv) (k : Nat) :
    ¬ (match procError env.vmprocPoll k "VM" with
       | some e => some e
       | none =>
         match procError env.addprocPoll k "addproc" with
         | some e => some e
         | none => procError env.hmacPoll k "hmac") = some ("" : String) := by
  cases hv : procError env.vmprocPoll k "VM" with
  | some e =>
    simp only [hv]
    intro h
    injection h with h2
    subst h2
    exact procError_ne_empty env.vmprocPoll k "VM" (by decide) hv
  | none =>
    simp only [hv]
    cases ha : procError env.addprocPoll k "addproc" with
    | some e =>
      simp only [ha]
      intro h
      injection h with h2
      subst h2
      exact procError_ne_empty env.addprocPoll k "addproc" (by decide) ha
    | none =>
      simp only [ha]
      exact procError_ne_empty env.hmacPoll k "hmac" (by decide)

/-- Environment for the C8 counterexample: in_stream at end of file (every
read returns zero bytes) while streamproc is alive and never exits. -/
def envC8 : WBFEnv :=
  { read := fun _ => 0, hmacPoll := none, addprocPoll := none
    vmprocPoll := none, streamprocPoll := some (fun _ => none) }

/-- C8 counterexample: a zero-byte read while streamproc is still alive
does NOT return the success value — the iteration continues the loop
(run_count was incremented for the live streamproc), and with streamproc
alive forever the function never returns at all, contradicting the claim
that it returns the empty error string rather than continuing to wait. -/
theorem spec_c8_cex :
    wbf_iter envC8 0 = WBFStep.again ∧
    ¬ wbf_iter envC8 0 = WBFStep.ret (some "") ∧
    wait_backup_feedback envC8 50 0 = none := by
  refine ⟨rfl, by decide, rfl⟩

/-- C8 amended: a zero-byte read of in_stream returns the success value ""
when there is NO streamproc (whether or not the other monitored processes,
in particular the producer addproc, are still alive), and when streamproc
HAS exited with code 0; while streamproc is still alive the iteration never
returns success — the loop keeps polling. -/
theorem spec_c8_amended (env : WBFEnv) (k : Nat) :
    (env.streamprocPoll = none → env.read k = 0 →
      wbf_iter env k = WBFStep.ret (some "")) ∧
    (∀ p, env.streamprocPoll = some p → p k = some 0 → env.read k = 0 →
      wbf_iter env k = WBFStep.ret (some "")) ∧
    (∀ p, env.streamprocPoll = some p → p k = none →
      ¬ wbf_iter env k = WBFStep.ret (some "")) := by
  refine ⟨?_, ?_, ?_⟩
  · intro hs hr
    unfold wbf_iter
    simp [hs, hr]
  · intro p hs hp hr
    unfold wbf_iter
    simp [hs, hp, hr]
  · intro p hs hp
    unfold wbf_iter
    simp only [hs, hp]
    split
    · simp
    next hre =>
      intro hcon
      injection hcon with h2
      exact runError_ne_empty env k h2

/-- Environment for the first C8 witness case: no streamproc, the producer
addproc still alive, zero-byte read. -/
def envC8noStream : WBFEnv :=
  { read := fun _ => 0, hmacPoll := none
    addprocPoll := some (fun _ => none)
    vmprocPoll := none, streamprocPoll := none }

/-- Environment for the second C8 witness case: streamproc exited 0,
zero-byte read. -/
def envC8exited : WBFEnv :=
  { read := fun _ => 0, hmacPoll := none, addprocPoll := none
    vmprocPoll := none, streamprocPoll := some (fun _ => some 0) }

/-- Witness for spec_c8_amended at concrete environments. -/
theorem spec_c8_witness :
    wbf_iter envC8noStream 0 = WBFStep.ret (some "") ∧
    wbf_iter envC8exited 0 = WBFStep.ret (some "") := by
  exact ⟨(spec_c8_amended envC8noStream 0).1 rfl rfl,
         (spec_c8_amended envC8exited 0).2.1 (fun _ => some 0) rfl rfl rfl⟩

theorem getLast?_drop_ne_nil (l : List Char) (k : Nat) (h : ¬ l.drop k = []) :
    (l.drop k).getLast? = l.getLast? := by
  conv_rhs => rw [← List.take_append_drop k l, List.getLast?_append]
  cases hd : (l.drop k).getLast? with
  | none => exact absurd (List.getLast?_eq_none_iff.mp hd) h
  | some c => rfl

theorem file_to_backup_subdir (p : String) (sz : Nat) (sd : Option String)
    (afd abd : String) (hafd : afd.data.getLast? = some '/')
    (e : Entry) (h : file_to_backup p sz sd afd abd = .ok e) :
    e.subdir.data = [] ∨ e.subdir.data.getLast? = some '/' := by
  cases sd with
  | some s =>
    simp only [file_to_backup] at h
    split at h
    next hcond =>
      injection h with h2
      subst h2
      right
      show (s ++ "/").data.getLast? = some '/'
      rw [String.data_append, show ("/" : String).data = ['/'] from rfl]
      exact List.getLast?_concat _
    next hcond =>
      injection h with h2
      subst h2
      rcases not_and_or.mp hcond with h1 | h2
      · left
        have hlen : s.data.length = 0 := by omega
        exact List.length_eq_zero.mp hlen
      · right
        exact not_not.mp h2
  | none =>
    simp only [file_to_backup] at h
    split at h
    next hpre =>
      injection h with h2
      subst h2
      by_cases hnil : afd.data.drop abd.data.length = []
      · left; exact hnil
      · right
        show (afd.data.drop abd.data.length).getLast? = some '/'
        rw [getLast?_drop_ne_nil afd.data abd.data.length hnil]
        exact hafd
    · cases h

theorem backup_prepare_assert_ok (files l : List Entry)
    (h : backup_prepare_assert files = .ok l) :
    l = files ∧
    ∀ e ∈ l, e.subdir.data.length = 0 ∨ e.subdir.data.getLast? = some '/' := by
  unfold backup_prepare_assert at h
  split at h
  next hall =>
    injection h with h2
    subst h2
    refine ⟨rfl, ?_⟩
    intro e he
    have hp := List.all_eq_true.mp hall e he
    simpa using hp
  · cases h

/-- Environment for the C9 counterexample: a benign, fully successful
backup run. -/
def envC9 : BackupEnv :=
  { appvm := false, baseDirExists := true, headerHmacOk := true
    iters := fun _ => [⟨"", true⟩], sendExit := 0 }

/-- C9 counterexample: backup_do accepts a plan containing the entry with
subdir "vm1" (nonempty, no trailing slash) — it completes successfully and
writes chunks, refusing nothing: the claimed subdir validation on the write
path does not exist in backup_do. -/
theorem spec_c9_cex :
    (backup_do envC9 [⟨"p", 1, "vm1"⟩] false false).2 = none ∧
    BEff.openChunk 0 0 ∈ (backup_do envC9 [⟨"p", 1, "vm1"⟩] false false).1 := by
  refine ⟨rfl, by decide⟩

/-- C9 amended: every entry built by file_to_backup has a subdir that is
empty or ends in '/', and backup_prepare's final assertion guarantees the
invariant for every entry it returns; the enforcement lives in
backup_prepare (plan construction), not in backup_do, which performs no
subdir validation. -/
theorem spec_c9_amended :
    (∀ (p : String) (sz : Nat) (sd : Option String) (afd abd : String)
      (e : Entry), afd.data.getLast? = some '/' →
      file_to_backup p sz sd afd abd = .ok e →
      e.subdir.data = [] ∨ e.subdir.data.getLast? = some '/') ∧
    (∀ (files l : List Entry), backup_prepare_assert files = .ok l →
      l = files ∧
      ∀ e ∈ l, e.subdir.data.length = 0 ∨ e.subdir.data.getLast? = some '/') := by
  exact ⟨fun p sz sd afd abd e hafd h => file_to_backup_subdir p sz sd afd abd hafd e h,
         backup_prepare_assert_ok⟩

/-- Witness for spec_c9_amended: file_to_backup normalizes "vm1" to a
slash-terminated subdir, and the assertion accepts a conforming plan. -/
theorem spec_c9_witness :
    ((⟨"p", 1, "vm1/"⟩ : Entry).subdir.data = [] ∨
      (⟨"p", 1, "vm1/"⟩ : Entry).subdir.data.getLast? = some '/') ∧
    ∀ e ∈ [(⟨"p", 1, "vm1/"⟩ : Entry)],
      e.subdir.data.length = 0 ∨ e.subdir.data.getLast? = some '/' := by
  exact ⟨spec_c9_amended.1 "p" 1 (some "vm1") "/b/" "/b/" ⟨"p", 1, "vm1/"⟩
      (by decide) rfl,
    (spec_c9_amended.2 [⟨"p", 1, "vm1/"⟩] [⟨"p", 1, "vm1/"⟩] rfl).2⟩
